import Mathlib

/-!
Shallow embedding of the CC1352 Edge-Impulse audio pipeline
(`src/cc1352/ei_main.cpp`): the triple-buffered capture/treatment queue
machinery, the read/error callbacks, the inference-worker loop body, the
classifier adapter `raw_feature_get_data`, and the GPIO actuation writes.
-/

namespace EdgeImpulseAudio

/-- `#define BUFSIZE 11200` — I2S buffer size in bytes. -/
def BUFSIZE : Nat := 11200

/-- `#define NUMBUFS 3` — number of buffers / transactions in the pool. -/
def NUMBUFS : Nat := 3

/-- `#define FEATURE_LENGTH BUFSIZE/2` — number of 16-bit samples per buffer. -/
def FEATURE_LENGTH : Nat := BUFSIZE / 2

/-- An `I2S_Transaction` descriptor: `bufPtr` (modelled as the index of the
static buffer `buf1`/`buf2`/`buf3` it points to) and `bufSize`, both set once
in `I2S_setup` and never written afterwards. -/
structure I2S_Transaction where
  bufPtr : Nat
  bufSize : Nat
deriving DecidableEq, Repr

/-- `i2sTransaction1` after `I2S_setup`: `bufPtr = buf1`, `bufSize = BUFSIZE`. -/
def i2sTransaction1 : I2S_Transaction := ⟨1, BUFSIZE⟩

/-- `i2sTransaction2` after `I2S_setup`: `bufPtr = buf2`, `bufSize = BUFSIZE`. -/
def i2sTransaction2 : I2S_Transaction := ⟨2, BUFSIZE⟩

/-- `i2sTransaction3` after `I2S_setup`: `bufPtr = buf3`, `bufSize = BUFSIZE`. -/
def i2sTransaction3 : I2S_Transaction := ⟨3, BUFSIZE⟩

/-- `i2sTransactionList` — the fixed pool of NUMBUFS transaction descriptors. -/
def i2sTransactionList : List I2S_Transaction :=
  [i2sTransaction1, i2sTransaction2, i2sTransaction3]

/-- The program state shared between the read callback (interrupt context),
the worker `controlThread`, and `ei_main`: the two `List_List` queues, the two
counting semaphores, and the two GPIO registers the code writes
(`DOUT_Control` and `DOE`). -/
structure EiState where
  i2sReadList : List I2S_Transaction
  treatmentList : List I2S_Transaction
  semDataReadyForTreatment : Nat
  semErrorCallback : Nat
  doutControl : Nat
  doe : Nat
deriving DecidableEq, Repr

/-- Each `ei_impulse_result_t` carries a status code (`EI_IMPULSE_ERROR res`)
and one confidence value per label; label indices in the code are
`GO_LABEL_INDEX = 0`, `NOISE_LABEL_INDEX = 1`, `STOP_LABEL_INDEX = 2`.
Confidences are modelled as rationals; the threshold literal `0.50` is exactly
representable in binary floating point, so `> 0.50` on floats and `> 1/2` on
rationals agree on it. -/
structure EiClassification where
  status : Int
  goValue : ℚ
  noiseValue : ℚ
  stopValue : ℚ

/-- The three observable actuation states of the (DIO7, DIO6) line pair. -/
inductive ActState
  | go
  | stop
  | noise
deriving DecidableEq, Repr

/-- The branch selected by the worker's if/else-if/else over the
classification result (ei_main.cpp lines 323–342): GO when the GO-label
confidence is strictly above 0.50, else STOP when the STOP-label confidence is
strictly above 0.50, else NOISE.  A pure function of the current cycle's two
confidences — no history. -/
def classifyDecision (goValue stopValue : ℚ) : ActState :=
  if goValue > 1/2 then .go
  else if stopValue > 1/2 then .stop
  else .noise

/-- `~x` on a `uint32_t`, modelled on `Nat` as xor against `0xFFFFFFFF`. -/
def mask32 : Nat := 4294967295

/-- The register writes of each branch on `DOUT_Control`:
GO: `value |= (1 << 7); value &= ~(1 << 6);`
STOP: `value &= ~(1 << 7); value |= (1 << 6);`
NOISE: no write. -/
def driveLines (d : ActState) (dout : Nat) : Nat :=
  match d with
  | .go => (dout ||| (1 <<< 7)) &&& (mask32 ^^^ (1 <<< 6))
  | .stop => (dout &&& (mask32 ^^^ (1 <<< 7))) ||| (1 <<< 6)
  | .noise => dout

/-- The `ei_printf` emitted by each branch. -/
def branchMsg : ActState → String
  | .go => "GO\r\n"
  | .stop => "STOP\r\n"
  | .noise => "NOISE\r\n"

/-- The GPIO initialization at the top of `controlThread`
(ei_main.cpp lines 277–282): enable DIO6 and DIO7 in `DOE`, then
`DOUT_Control |= (1 << 6)` and `DOUT_Control &= ~(1 << 7)`. -/
def gpioInit (s : EiState) : EiState :=
  let s1 := { s with doe := s.doe ||| ((1 <<< 7) ||| (1 <<< 6)) }
  let s2 := { s1 with doutControl := s1.doutControl ||| (1 <<< 6) }
  { s2 with doutControl := s2.doutControl &&& (mask32 ^^^ (1 <<< 7)) }

/-- State right after `I2S_setup` and the semaphore/GPIO initialization of
`controlThread`, before the treatment loop runs: both lists cleared, all
NUMBUFS transactions enqueued in order on the read list, both semaphores at 0,
GPIO lines initialized from arbitrary reset values `doe0`/`dout0`. -/
def initState (doe0 dout0 : Nat) : EiState :=
  gpioInit
    { i2sReadList := i2sTransactionList
      treatmentList := []
      semDataReadyForTreatment := 0
      semErrorCallback := 0
      doutControl := dout0
      doe := doe0 }

/-- Helper for `List_prev`: walk the list remembering the last element seen;
`listPrevAux p ys t` is the element standing just before the first occurrence
of `t` in `p :: ys`, given `p` is not that occurrence. -/
def listPrevAux (p : I2S_Transaction) :
    List I2S_Transaction → I2S_Transaction → Option I2S_Transaction
  | [], _ => none
  | y :: ys, t => if y = t then some p else listPrevAux y ys t

/-- `List_prev(&t->queueElement)` on the read queue: the element linked just
before `t`, or `NULL` when `t` is the head (or absent). -/
def List_prev (q : List I2S_Transaction) (t : I2S_Transaction) :
    Option I2S_Transaction :=
  match q with
  | [] => none
  | x :: xs => if x = t then none else listPrevAux x xs t

/-- `I2SreadCallback` (ei_main.cpp lines 151–170), run in the capture
interrupt context each time a new read transaction `transactionPtr` starts:
look up the previous transaction in the read queue; when it exists, it is the
finished one — `List_remove` it from `i2sReadList`, `List_put` (append at
tail) it on `treatmentList`, and `sem_post` the treatment semaphore once;
when it is `NULL` (first capture period), do nothing. -/
def I2SreadCallback (s : EiState) (transactionPtr : I2S_Transaction) : EiState :=
  match List_prev s.i2sReadList transactionPtr with
  | none => s
  | some transactionFinished =>
      { s with
        i2sReadList := s.i2sReadList.erase transactionFinished
        treatmentList := s.treatmentList ++ [transactionFinished]
        semDataReadyForTreatment := s.semDataReadyForTreatment + 1 }

/-- `I2SerrCallback` (ei_main.cpp lines 138–142): the body is empty — the
`sem_post(&semErrorCallback)` line is commented out — so the callback changes
nothing. -/
def I2SerrCallback (s : EiState) : EiState := s

/-- The condition under which `ei_main`'s `sem_wait(&semErrorCallback)`
(line 439) returns, letting it cancel the worker and close the driver. -/
def eiMainWakes (s : EiState) : Prop := 0 < s.semErrorCallback

/-- Outcome of one pass of the worker loop body. -/
inductive WorkerOutcome
  | blocked
  | continued
  | halted
deriving DecidableEq, Repr

/-- One iteration of the `controlThread` treatment loop
(ei_main.cpp lines 286–378), as a function of a per-buffer classifier oracle
`cls` standing for `run_classifier` on the buffer's contents.  `sem_wait`
decrements the counting semaphore (modelled: enabled only when nonzero);
`List_head` reads the head of `treatmentList` without removing it; when the
head is `NULL` the body is skipped and the loop continues; otherwise the
classifier runs, the actuation branch fires (printing and driving the lines),
then a non-zero status prints `run_classifier fail.` and returns from the
thread, else the treated transaction is removed from `treatmentList` and
appended to `i2sReadList`.  Returns the new state, the outcome, and the list
of `ei_printf` messages emitted. -/
def workerCycle (cls : I2S_Transaction → EiClassification) (s : EiState) :
    EiState × WorkerOutcome × List String :=
  if s.semDataReadyForTreatment = 0 then (s, .blocked, [])
  else
    let s1 := { s with semDataReadyForTreatment := s.semDataReadyForTreatment - 1 }
    match s1.treatmentList with
    | [] => (s1, .continued, [])
    | transactionToTreat :: rest =>
        let result := cls transactionToTreat
        let dec := classifyDecision result.goValue result.stopValue
        let s2 := { s1 with doutControl := driveLines dec s1.doutControl }
        if result.status ≠ 0 then
          (s2, .halted, [branchMsg dec, "run_classifier fail.\r\n"])
        else
          ({ s2 with
              treatmentList := rest
              i2sReadList := s2.i2sReadList ++ [transactionToTreat] },
           .continued, [branchMsg dec])

/-- The state component of one worker-loop pass. -/
def workerStep (cls : I2S_Transaction → EiClassification) (s : EiState) : EiState :=
  (workerCycle cls s).1

/-- States reachable from startup by interleavings of read-callback
invocations (with an arbitrary new active transaction) and worker-loop
passes (with an arbitrary classifier oracle). -/
inductive Reach : EiState → Prop
  | init (doe0 dout0 : Nat) : Reach (initState doe0 dout0)
  | handler {s : EiState} (t : I2S_Transaction) : Reach s → Reach (I2SreadCallback s t)
  | worker {s : EiState} (cls : I2S_Transaction → EiClassification) :
      Reach s → Reach (workerStep cls s)

/-- The queue invariant: the read queue and the treatment queue together hold
exactly the NUMBUFS pool transactions (as a permutation), and the read queue
is never empty (the interface always holds at least the active transaction). -/
def QueueInv (s : EiState) : Prop :=
  (s.i2sReadList ++ s.treatmentList).Perm i2sTransactionList ∧
  1 ≤ s.i2sReadList.length

/-- `arm_q15_to_float(pSrc, pDst, blockSize)`: converts `blockSize` samples
from Q15 fixed point to floating point, `pDst[n] = (float) pSrc[n] / 32768`.
Q15 values divided by 2^15 are exactly representable in binary32, so the
conversion is modelled exactly on rationals. -/
def arm_q15_to_float (pSrc : List Int) (blockSize : Nat) : List ℚ :=
  (pSrc.take blockSize).map (fun x : Int => (x : ℚ) / 32768)

/-- `raw_feature_get_data(offset, length, out_ptr)` (ei_main.cpp lines
174–179): converts `length` samples starting at `features + offset` of the
currently bound buffer into the caller-supplied output region, then returns
0.  The bound buffer is the `features` argument; the output region `out_ptr`
is a list whose first `length` entries are overwritten, the rest untouched. -/
def raw_feature_get_data (features : List Int) (offset length : Nat)
    (out_ptr : List ℚ) : List ℚ × Int :=
  (arm_q15_to_float (features.drop offset) length ++ out_ptr.drop length, 0)

/-- A classifier oracle returning success with all-zero confidences, used to
instantiate worker cycles on concrete states. -/
def clsZero : I2S_Transaction → EiClassification :=
  fun _ => ⟨0, 0, 0, 0⟩

/-- A classifier oracle returning a non-zero status, used to instantiate the
classifier-failure path on concrete states. -/
def clsFail : I2S_Transaction → EiClassification :=
  fun _ => ⟨-1002, 0, 0, 0⟩

/-- A concrete signaled-but-empty state: the treatment semaphore was posted
but the treatment queue is empty (the spurious-wake situation). -/
def spuriousState : EiState :=
  { i2sReadList := i2sTransactionList
    treatmentList := []
    semDataReadyForTreatment := 1
    semErrorCallback := 0
    doutControl := 64
    doe := 192 }

/-- A sequence of read-callback invocations, one per new active
transaction, with no worker pass in between (a completion burst). -/
def handlerSeq (s : EiState) (ts : List I2S_Transaction) : EiState :=
  ts.foldl I2SreadCallback s

/-- Whether every invocation of the burst finds a finished predecessor and
therefore posts the semaphore. -/
def allPost : EiState → List I2S_Transaction → Bool
  | _, [] => true
  | s, t :: ts =>
      (List_prev s.i2sReadList t).isSome && allPost (I2SreadCallback s t) ts

/-- The finished buffers a callback burst moves to the treatment queue, in
completion order. -/
def movedSeq : EiState → List I2S_Transaction → List I2S_Transaction
  | _, [] => []
  | s, t :: ts =>
      match List_prev s.i2sReadList t with
      | some p => p :: movedSeq (I2SreadCallback s t) ts
      | none => movedSeq (I2SreadCallback s t) ts

/-- `n` consecutive worker-loop passes. -/
def workerIter (cls : I2S_Transaction → EiClassification) :
    Nat → EiState → EiState
  | 0, s => s
  | n + 1, s => workerIter cls n (workerStep cls s)

/-- The transactions treated by `n` consecutive worker passes, in order:
every pass that consumes a signal and finds a nonempty treatment queue
treats that queue's head. -/
def procSeq (cls : I2S_Transaction → EiClassification) :
    Nat → EiState → List I2S_Transaction
  | 0, _ => []
  | n + 1, s =>
      match s.semDataReadyForTreatment, s.treatmentList with
      | 0, _ => procSeq cls n (workerStep cls s)
      | _ + 1, [] => procSeq cls n (workerStep cls s)
      | _ + 1, t :: _ => t :: procSeq cls n (workerStep cls s)

end EdgeImpulseAudio

namespace EdgeImpulseAudio

theorem testBit_128_7 : Nat.testBit 128 7 = true := by decide

theorem testBit_128_6 : Nat.testBit 128 6 = false := by decide

theorem testBit_64_6 : Nat.testBit 64 6 = true := by decide

theorem testBit_64_7 : Nat.testBit 64 7 = false := by decide

theorem testBit_192_6 : Nat.testBit 192 6 = true := by decide

theorem testBit_192_7 : Nat.testBit 192 7 = true := by decide

theorem testBit_mask32_6 : Nat.testBit mask32 6 = true := by decide

theorem testBit_mask32_7 : Nat.testBit mask32 7 = true := by decide

/-- GO write: DIO7 ends set, DIO6 ends cleared, whatever the prior value. -/
theorem driveLines_go (d : Nat) :
    Nat.testBit (driveLines .go d) 7 = true ∧ Nat.testBit (driveLines .go d) 6 = false := by
  constructor
  · simp [driveLines, Nat.testBit_land, Nat.testBit_lor, Nat.testBit_xor,
      testBit_128_7, testBit_64_7, testBit_mask32_7]
  · simp [driveLines, Nat.testBit_land, Nat.testBit_lor, Nat.testBit_xor,
      testBit_128_6, testBit_64_6, testBit_mask32_6]

/-- STOP write: DIO7 ends cleared, DIO6 ends set, whatever the prior value. -/
theorem driveLines_stop (d : Nat) :
    Nat.testBit (driveLines .stop d) 7 = false ∧ Nat.testBit (driveLines .stop d) 6 = true := by
  constructor
  · simp [driveLines, Nat.testBit_lor, Nat.testBit_land, Nat.testBit_xor,
      testBit_128_7, testBit_64_7, testBit_mask32_7]
  · simp [driveLines, Nat.testBit_lor, Nat.testBit_land, Nat.testBit_xor,
      testBit_128_6, testBit_64_6, testBit_mask32_6]

/-- C1: Per classification result, the actuation decision is: GO-confidence
strictly above 0.50 drives GO with (DIO7, DIO6) = (1, 0); otherwise
STOP-confidence strictly above 0.50 drives STOP = (0, 1); otherwise NOISE
leaves `DOUT_Control` unchanged.  The three cases are exhaustive and mutually
exclusive, the decision is a pure function of the current confidences alone,
and at GO-confidence exactly 0.50 the decision is not GO. -/
theorem actuation_decision (g st : ℚ) (d : Nat) :
    (1/2 < g →
      classifyDecision g st = .go ∧
      Nat.testBit (driveLines (classifyDecision g st) d) 7 = true ∧
      Nat.testBit (driveLines (classifyDecision g st) d) 6 = false) ∧
    (¬ 1/2 < g → 1/2 < st →
      classifyDecision g st = .stop ∧
      Nat.testBit (driveLines (classifyDecision g st) d) 7 = false ∧
      Nat.testBit (driveLines (classifyDecision g st) d) 6 = true) ∧
    (¬ 1/2 < g → ¬ 1/2 < st →
      classifyDecision g st = .noise ∧
      driveLines (classifyDecision g st) d = d) ∧
    (g = 1/2 → classifyDecision g st ≠ .go) := by
  refine ⟨?_, ?_, ?_, ?_⟩
  · intro hg
    have hd : classifyDecision g st = .go := by
      unfold classifyDecision
      rw [if_pos hg]
    rw [hd]
    exact ⟨rfl, (driveLines_go d).1, (driveLines_go d).2⟩
  · intro hg hst
    have hd : classifyDecision g st = .stop := by
      unfold classifyDecision
      rw [if_neg hg, if_pos hst]
    rw [hd]
    exact ⟨rfl, (driveLines_stop d).1, (driveLines_stop d).2⟩
  · intro hg hst
    have hd : classifyDecision g st = .noise := by
      unfold classifyDecision
      rw [if_neg hg, if_neg hst]
    rw [hd]
    exact ⟨rfl, rfl⟩
  · intro hg
    subst hg
    unfold classifyDecision
    rw [if_neg (by norm_num : ¬ ((1:ℚ)/2 > 1/2))]
    by_cases hst : st > 1/2
    · rw [if_pos hst]
      intro h
      cases h
    · rw [if_neg hst]
      intro h
      cases h

/-- C1 witness: at GO-confidence 0.63, STOP-confidence 0.10 and prior register
value 0, the decision is GO and the lines end at (DIO7, DIO6) = (1, 0); at
GO-confidence exactly 0.50 the decision is not GO. -/
theorem actuation_decision_witness :
    (classifyDecision (63/100) (1/10) = .go ∧
      Nat.testBit (driveLines (classifyDecision (63/100) (1/10)) 0) 7 = true ∧
      Nat.testBit (driveLines (classifyDecision (63/100) (1/10)) 0) 6 = false) ∧
    classifyDecision (1/2) (71/100) ≠ .go := by
  exact ⟨(actuation_decision (63/100) (1/10) 0).1 (by norm_num),
         (actuation_decision (1/2) (71/100) 0).2.2.2 rfl⟩

theorem listPrevAux_mem {p r t : I2S_Transaction} :
    ∀ {ys : List I2S_Transaction}, listPrevAux p ys t = some r → r = p ∨ r ∈ ys := by
  intro ys
  induction ys generalizing p with
  | nil => intro h; cases h
  | cons y ys ih =>
      intro h
      rw [listPrevAux] at h
      by_cases hy : y = t
      · rw [if_pos hy] at h
        exact Or.inl (Option.some.inj h).symm
      · rw [if_neg hy] at h
        rcases ih h with h1 | h1
        · exact Or.inr (by rw [h1]; exact List.mem_cons_self y ys)
        · exact Or.inr (List.mem_cons_of_mem y h1)

theorem List_prev_mem {q : List I2S_Transaction} {t p : I2S_Transaction}
    (h : List_prev q t = some p) : p ∈ q := by
  match q with
  | [] => cases h
  | x :: xs =>
      rw [List_prev] at h
      by_cases hx : x = t
      · rw [if_pos hx] at h; cases h
      · rw [if_neg hx] at h
        rcases listPrevAux_mem h with h1 | h1
        · rw [h1]; exact List.mem_cons_self x xs
        · exact List.mem_cons_of_mem x h1

theorem List_prev_length {q : List I2S_Transaction} {t p : I2S_Transaction}
    (h : List_prev q t = some p) : 2 ≤ q.length := by
  match q with
  | [] => cases h
  | [x] =>
      rw [List_prev] at h
      split at h
      · cases h
      · cases h
  | x :: y :: xs =>
      simp only [List.length_cons]
      omega

/-- The state produced by the read callback when the new active transaction
has a predecessor in the read queue. -/
theorem I2SreadCallback_some (s : EiState) (t p : I2S_Transaction)
    (hp : List_prev s.i2sReadList t = some p) :
    I2SreadCallback s t =
      { s with
        i2sReadList := s.i2sReadList.erase p
        treatmentList := s.treatmentList ++ [p]
        semDataReadyForTreatment := s.semDataReadyForTreatment + 1 } := by
  rw [I2SreadCallback, hp]

/-- The read callback does nothing when the new active transaction has no
predecessor in the read queue. -/
theorem I2SreadCallback_none (s : EiState) (t : I2S_Transaction)
    (hp : List_prev s.i2sReadList t = none) :
    I2SreadCallback s t = s := by
  rw [I2SreadCallback, hp]

/-- The read callback preserves the queue invariant: it moves the finished
predecessor from the read queue to the treatment queue (or does nothing),
and the active transaction keeps the read queue nonempty. -/
theorem queueInv_readCallback (s : EiState) (t : I2S_Transaction)
    (h : QueueInv s) : QueueInv (I2SreadCallback s t) := by
  obtain ⟨hperm, hlen⟩ := h
  cases hp : List_prev s.i2sReadList t with
  | none => rw [I2SreadCallback_none s t hp]; exact ⟨hperm, hlen⟩
  | some p =>
      have hmem : p ∈ s.i2sReadList := List_prev_mem hp
      have h2 : 2 ≤ s.i2sReadList.length := List_prev_length hp
      rw [I2SreadCallback_some s t p hp]
      constructor
      · show (s.i2sReadList.erase p ++ (s.treatmentList ++ [p])).Perm i2sTransactionList
        have e1 : s.i2sReadList.erase p ++ (s.treatmentList ++ [p]) =
            (s.i2sReadList.erase p ++ s.treatmentList) ++ [p] :=
          (List.append_assoc _ _ _).symm
        rw [e1]
        have step1 : ((s.i2sReadList.erase p ++ s.treatmentList) ++ [p]).Perm
            (p :: (s.i2sReadList.erase p ++ s.treatmentList)) :=
          List.perm_append_singleton p _
        have step2 : ((p :: s.i2sReadList.erase p) ++ s.treatmentList).Perm
            (s.i2sReadList ++ s.treatmentList) :=
          ((List.perm_cons_erase hmem).symm).append_right s.treatmentList
        exact step1.trans (step2.trans hperm)
      · show 1 ≤ (s.i2sReadList.erase p).length
        rw [List.length_erase_of_mem hmem]
        omega

/-- Worker pass, blocked case: the semaphore is zero, `sem_wait` suspends. -/
theorem workerCycle_blocked (cls : I2S_Transaction → EiClassification) (s : EiState)
    (h0 : s.semDataReadyForTreatment = 0) :
    workerCycle cls s = (s, .blocked, []) := by
  rw [workerCycle, if_pos h0]

/-- Worker pass, spurious wake: signaled but the treatment queue is empty —
the body is skipped entirely, nothing is printed, and the loop continues. -/
theorem workerCycle_spurious (cls : I2S_Transaction → EiClassification) (s : EiState)
    (h0 : ¬ s.semDataReadyForTreatment = 0) (ht : s.treatmentList = []) :
    workerCycle cls s =
      ({ s with semDataReadyForTreatment := s.semDataReadyForTreatment - 1 },
       .continued, []) := by
  rw [workerCycle, if_neg h0]
  simp only [ht]

/-- Worker pass, classifier failure: actuation fires from the result, then
`run_classifier fail.` is printed and the thread returns; the queues are not
touched. -/
theorem workerCycle_fail (cls : I2S_Transaction → EiClassification) (s : EiState)
    (t : I2S_Transaction) (rest : List I2S_Transaction)
    (h0 : ¬ s.semDataReadyForTreatment = 0) (ht : s.treatmentList = t :: rest)
    (hs : (cls t).status ≠ 0) :
    workerCycle cls s =
      ({ s with
          semDataReadyForTreatment := s.semDataReadyForTreatment - 1
          doutControl :=
            driveLines (classifyDecision (cls t).goValue (cls t).stopValue)
              s.doutControl },
       .halted,
       [branchMsg (classifyDecision (cls t).goValue (cls t).stopValue),
        "run_classifier fail.\r\n"]) := by
  rw [workerCycle, if_neg h0]
  simp only [ht, if_pos hs]

/-- Worker pass, success: actuation fires, the treated head moves from the
treatment queue to the tail of the read queue, and the loop continues. -/
theorem workerCycle_ok (cls : I2S_Transaction → EiClassification) (s : EiState)
    (t : I2S_Transaction) (rest : List I2S_Transaction)
    (h0 : ¬ s.semDataReadyForTreatment = 0) (ht : s.treatmentList = t :: rest)
    (hs : (cls t).status = 0) :
    workerCycle cls s =
      ({ s with
          semDataReadyForTreatment := s.semDataReadyForTreatment - 1
          doutControl :=
            driveLines (classifyDecision (cls t).goValue (cls t).stopValue)
              s.doutControl
          treatmentList := rest
          i2sReadList := s.i2sReadList ++ [t] },
       .continued,
       [branchMsg (classifyDecision (cls t).goValue (cls t).stopValue)]) := by
  rw [workerCycle, if_neg h0]
  simp only [ht, hs]
  simp

/-- A worker pass preserves the queue invariant: either it leaves the queues
alone (blocked, spurious wake, classifier failure) or it moves the treated
head from the treatment queue to the tail of the read queue. -/
theorem queueInv_workerStep (cls : I2S_Transaction → EiClassification) (s : EiState)
    (h : QueueInv s) : QueueInv (workerStep cls s) := by
  obtain ⟨hperm, hlen⟩ := h
  rw [workerStep]
  by_cases h0 : s.semDataReadyForTreatment = 0
  · rw [workerCycle_blocked cls s h0]
    exact ⟨hperm, hlen⟩
  · cases ht : s.treatmentList with
    | nil =>
        rw [workerCycle_spurious cls s h0 ht]
        exact ⟨by simpa [ht] using hperm, hlen⟩
    | cons t rest =>
        by_cases hs : (cls t).status = 0
        · rw [workerCycle_ok cls s t rest h0 ht hs]
          constructor
          · show ((s.i2sReadList ++ [t]) ++ rest).Perm i2sTransactionList
            have e1 : (s.i2sReadList ++ [t]) ++ rest =
                s.i2sReadList ++ (t :: rest) := List.append_assoc _ _ _
            rw [e1, ← ht]
            exact hperm
          · show 1 ≤ (s.i2sReadList ++ [t]).length
            simp only [List.length_append]
            omega
        · rw [workerCycle_fail cls s t rest h0 ht hs]
          exact ⟨hperm, hlen⟩

/-- Every reachable state satisfies the queue invariant. -/
theorem reach_queueInv {s : EiState} (h : Reach s) : QueueInv s := by
  induction h with
  | init doe0 dout0 =>
      constructor
      · show ((initState doe0 dout0).i2sReadList ++
            (initState doe0 dout0).treatmentList).Perm i2sTransactionList
        have h1 : (initState doe0 dout0).i2sReadList = i2sTransactionList := rfl
        have h2 : (initState doe0 dout0).treatmentList = [] := rfl
        rw [h1, h2, List.append_nil]
      · show 1 ≤ (initState doe0 dout0).i2sReadList.length
        have h1 : (initState doe0 dout0).i2sReadList = i2sTransactionList := rfl
        rw [h1]
        decide
  | handler t _ ih => exact queueInv_readCallback _ t ih
  | worker cls _ ih => exact queueInv_workerStep cls _ ih

/-- Unpacking of the queue invariant into the observable partition facts:
disjointness, exact combined membership, no duplicates, bounded treatment
queue. -/
theorem queueInv_partition (s : EiState) (h : QueueInv s) :
    (∀ x, ¬(x ∈ s.i2sReadList ∧ x ∈ s.treatmentList)) ∧
    (∀ x, (x ∈ s.i2sReadList ∨ x ∈ s.treatmentList) ↔ x ∈ i2sTransactionList) ∧
    s.i2sReadList.Nodup ∧
    s.treatmentList.Nodup ∧
    s.treatmentList.length ≤ NUMBUFS - 1 := by
  obtain ⟨hperm, hlen⟩ := h
  have hpool : i2sTransactionList.Nodup := by decide
  have hnd : (s.i2sReadList ++ s.treatmentList).Nodup := hperm.nodup_iff.mpr hpool
  rw [List.nodup_append] at hnd
  obtain ⟨hnd1, hnd2, hdisj⟩ := hnd
  refine ⟨?_, ?_, hnd1, hnd2, ?_⟩
  · intro x ⟨hx1, hx2⟩
    exact hdisj hx1 hx2
  · intro x
    rw [← List.mem_append]
    exact hperm.mem_iff
  · have := hperm.length_eq
    simp only [List.length_append] at this
    have hpl : i2sTransactionList.length = 3 := by decide
    rw [hpl] at this
    rw [NUMBUFS]
    omega

/-- C2: at every observation point between handler and worker steps (every
reachable state), the read queue and the treatment queue are disjoint, their
combined membership is exactly the NUMBUFS = 3 pool transactions, no
transaction appears twice in a queue, and the treatment queue holds at most
NUMBUFS − 1 = 2 transactions. -/
theorem queues_partition (s : EiState) (h : Reach s) :
    (∀ x, ¬(x ∈ s.i2sReadList ∧ x ∈ s.treatmentList)) ∧
    (∀ x, (x ∈ s.i2sReadList ∨ x ∈ s.treatmentList) ↔ x ∈ i2sTransactionList) ∧
    s.i2sReadList.Nodup ∧
    s.treatmentList.Nodup ∧
    s.treatmentList.length ≤ NUMBUFS - 1 :=
  queueInv_partition s (reach_queueInv h)

/-- C2 witness: the startup state is reachable and satisfies the partition
properties; in particular its treatment queue is within the bound. -/
theorem queues_partition_witness :
    (initState 0 0).i2sReadList.Nodup ∧
    (initState 0 0).treatmentList.length ≤ NUMBUFS - 1 := by
  have h := queues_partition (initState 0 0) (Reach.init 0 0)
  exact ⟨h.2.2.1, h.2.2.2.2⟩

/-- C4: on each read-callback invocation with new active transaction `t`:
when `t` has a predecessor `p` in the read queue, the handler removes exactly
`p` from the read queue, appends it at the tail of the treatment queue, and
posts the worker semaphore exactly once; when `t` has no predecessor (first
capture period after startup), the state — both queues and the semaphore —
is left unchanged. -/
theorem read_callback_moves (s : EiState) (t : I2S_Transaction) :
    (∀ p, List_prev s.i2sReadList t = some p →
      p ∈ s.i2sReadList ∧
      (I2SreadCallback s t).i2sReadList = s.i2sReadList.erase p ∧
      (I2SreadCallback s t).treatmentList = s.treatmentList ++ [p] ∧
      (I2SreadCallback s t).semDataReadyForTreatment =
        s.semDataReadyForTreatment + 1) ∧
    (List_prev s.i2sReadList t = none → I2SreadCallback s t = s) := by
  constructor
  · intro p hp
    refine ⟨List_prev_mem hp, ?_, ?_, ?_⟩ <;> simp [I2SreadCallback, hp]
  · intro hp
    simp [I2SreadCallback, hp]

/-- C4 witness: from the startup state, the callback for new active
transaction 2 moves transaction 1 (its predecessor) from the read queue to
the treatment queue and posts the semaphore once. -/
theorem read_callback_moves_witness :
    i2sTransaction1 ∈ (initState 0 0).i2sReadList ∧
    (I2SreadCallback (initState 0 0) i2sTransaction2).treatmentList =
      (initState 0 0).treatmentList ++ [i2sTransaction1] ∧
    (I2SreadCallback (initState 0 0) i2sTransaction2).semDataReadyForTreatment =
      (initState 0 0).semDataReadyForTreatment + 1 := by
  have h := (read_callback_moves (initState 0 0) i2sTransaction2).1
    i2sTransaction1 (by decide)
  exact ⟨h.1, h.2.2.1, h.2.2.2⟩

/-- C10: after `controlThread`'s setup and before any treatment cycle, DIO6
and DIO7 are enabled as outputs in `DOE`, and `DOUT_Control` is driven to the
STOP pattern: DIO6 set, DIO7 cleared — for every hardware reset value of the
two registers. -/
theorem initial_state_is_stop (doe0 dout0 : Nat) :
    Nat.testBit (initState doe0 dout0).doe 6 = true ∧
    Nat.testBit (initState doe0 dout0).doe 7 = true ∧
    Nat.testBit (initState doe0 dout0).doutControl 6 = true ∧
    Nat.testBit (initState doe0 dout0).doutControl 7 = false := by
  refine ⟨?_, ?_, ?_, ?_⟩
  · simp [initState, gpioInit, Nat.testBit_lor, testBit_192_6]
  · simp [initState, gpioInit, Nat.testBit_lor, testBit_192_7]
  · simp [initState, gpioInit, Nat.testBit_land, Nat.testBit_lor, Nat.testBit_xor,
      testBit_64_6, testBit_128_6, testBit_mask32_6]
  · simp [initState, gpioInit, Nat.testBit_land, Nat.testBit_lor, Nat.testBit_xor,
      testBit_64_7, testBit_128_7, testBit_mask32_7]

/-- Reachable states never have a posted error semaphore: nothing in the
pipeline ever posts `semErrorCallback` (its only post site is commented
out). -/
theorem reach_semError {s : EiState} (h : Reach s) : s.semErrorCallback = 0 := by
  induction h with
  | init doe0 dout0 => rfl
  | handler t _ ih =>
      rename_i s' _
      cases hp : List_prev s'.i2sReadList t with
      | none => rw [I2SreadCallback_none s' t hp]; exact ih
      | some p => rw [I2SreadCallback_some s' t p hp]; exact ih
  | worker cls _ ih =>
      rename_i s' _
      rw [workerStep]
      by_cases h0 : s'.semDataReadyForTreatment = 0
      · rw [workerCycle_blocked cls s' h0]; exact ih
      · cases ht : s'.treatmentList with
        | nil => rw [workerCycle_spurious cls s' h0 ht]; exact ih
        | cons t rest =>
            by_cases hs : (cls t).status = 0
            · rw [workerCycle_ok cls s' t rest h0 ht hs]; exact ih
            · rw [workerCycle_fail cls s' t rest h0 ht hs]; exact ih

/-- C3 (code bug): `I2SerrCallback` does nothing — its `sem_post` is
commented out — so in every reachable state an I2S error leaves the state
unchanged, the error semaphore stays at zero, and `ei_main`'s
`sem_wait(&semErrorCallback)` never returns: the run loop never stops
waiting, never cancels the worker, and capture continues silently, contrary
to the fatal-error contract. -/
theorem error_callback_ignored (s : EiState) (h : Reach s) :
    I2SerrCallback s = s ∧
    (I2SerrCallback s).semErrorCallback = 0 ∧
    ¬ eiMainWakes (I2SerrCallback s) := by
  refine ⟨rfl, reach_semError h, ?_⟩
  rw [eiMainWakes, I2SerrCallback, reach_semError h]
  omega

/-- C3 witness: at the startup state, the error callback leaves the state
unchanged and the run loop stays blocked. -/
theorem error_callback_ignored_witness :
    I2SerrCallback (initState 0 0) = initState 0 0 ∧
    ¬ eiMainWakes (I2SerrCallback (initState 0 0)) := by
  have h := error_callback_ignored (initState 0 0) (Reach.init 0 0)
  exact ⟨h.1, h.2.2⟩

/-- C5: when the classifier returns a non-zero status, the worker exits its
loop (`.halted`, printing the failure), performs no retry, and the queue
invariants survive the fault: both queues are untouched, so they stay
disjoint and together still hold all NUMBUFS transactions, with the failed
transaction still at the head of the treatment queue. -/
theorem classifier_failure_halts (s : EiState)
    (cls : I2S_Transaction → EiClassification) (t : I2S_Transaction)
    (rest : List I2S_Transaction) (hr : Reach s)
    (h0 : 0 < s.semDataReadyForTreatment) (ht : s.treatmentList = t :: rest)
    (hs : (cls t).status ≠ 0) :
    (workerCycle cls s).2.1 = .halted ∧
    "run_classifier fail.\r\n" ∈ (workerCycle cls s).2.2 ∧
    (workerCycle cls s).1.treatmentList = s.treatmentList ∧
    (workerCycle cls s).1.i2sReadList = s.i2sReadList ∧
    t ∈ (workerCycle cls s).1.treatmentList ∧
    (∀ x, ¬(x ∈ (workerCycle cls s).1.i2sReadList ∧
            x ∈ (workerCycle cls s).1.treatmentList)) ∧
    (∀ x, (x ∈ (workerCycle cls s).1.i2sReadList ∨
            x ∈ (workerCycle cls s).1.treatmentList) ↔
          x ∈ i2sTransactionList) := by
  have h0' : ¬ s.semDataReadyForTreatment = 0 := by omega
  have hinv : QueueInv (workerStep cls s) :=
    queueInv_workerStep cls s (reach_queueInv hr)
  have hpart := queueInv_partition _ hinv
  rw [workerStep] at hpart
  rw [workerCycle_fail cls s t rest h0' ht hs] at hpart ⊢
  refine ⟨rfl, ?_, rfl, rfl, ?_, hpart.1, hpart.2.1⟩
  · simp
  · rw [ht]
    exact List.mem_cons_self t rest

/-- C5 witness: from the reachable state after the first completed capture,
a failing classifier halts the worker and leaves transaction 1 in the
treatment queue. -/
theorem classifier_failure_halts_witness :
    (workerCycle clsFail (I2SreadCallback (initState 0 0) i2sTransaction2)).2.1 =
      .halted ∧
    i2sTransaction1 ∈
      (workerCycle clsFail
        (I2SreadCallback (initState 0 0) i2sTransaction2)).1.treatmentList := by
  have h := classifier_failure_halts
    (I2SreadCallback (initState 0 0) i2sTransaction2) clsFail
    i2sTransaction1 [] (Reach.handler i2sTransaction2 (Reach.init 0 0))
    (by decide) (by decide) (by decide)
  exact ⟨h.1, h.2.2.2.2.1⟩

/-- C7: a transaction that completes a successful cycle is appended back at
the tail of the read (capture) queue as the very same descriptor — in
particular its buffer pointer and its buffer capacity are the values set in
`I2S_setup` (`bufSize = BUFSIZE`), unchanged by the cycle. -/
theorem round_trip_identity (s : EiState)
    (cls : I2S_Transaction → EiClassification) (t : I2S_Transaction)
    (rest : List I2S_Transaction) (hr : Reach s)
    (h0 : 0 < s.semDataReadyForTreatment) (ht : s.treatmentList = t :: rest)
    (hs : (cls t).status = 0) :
    (workerCycle cls s).1.i2sReadList = s.i2sReadList ++ [t] ∧
    t ∈ i2sTransactionList ∧
    t.bufSize = BUFSIZE := by
  have h0' : ¬ s.semDataReadyForTreatment = 0 := by omega
  have hpool : t ∈ i2sTransactionList := by
    have ⟨hperm, _⟩ := reach_queueInv hr
    have : t ∈ s.i2sReadList ++ s.treatmentList := by
      rw [List.mem_append, ht]
      exact Or.inr (List.mem_cons_self t rest)
    exact hperm.mem_iff.mp this
  have hsize : ∀ x ∈ i2sTransactionList, x.bufSize = BUFSIZE := by decide
  rw [workerCycle_ok cls s t rest h0' ht hs]
  exact ⟨rfl, hpool, hsize t hpool⟩

/-- C7 witness: transaction 1, captured and classified from the reachable
post-first-capture state, returns to the tail of the read queue with its
initialization-time buffer pointer and BUFSIZE capacity. -/
theorem round_trip_identity_witness :
    (workerCycle clsZero (I2SreadCallback (initState 0 0) i2sTransaction2)).1.i2sReadList =
      (I2SreadCallback (initState 0 0) i2sTransaction2).i2sReadList ++
        [i2sTransaction1] ∧
    i2sTransaction1.bufSize = BUFSIZE := by
  have h := round_trip_identity
    (I2SreadCallback (initState 0 0) i2sTransaction2) clsZero
    i2sTransaction1 [] (Reach.handler i2sTransaction2 (Reach.init 0 0))
    (by decide) (by decide) (by decide)
  exact ⟨h.1, h.2.2⟩

/-- C8 counterexample: the claim says a spurious wake is logged; in the code
the empty-head case falls through the `if (transactionToTreat != NULL)` guard
with no `ei_printf` at all.  At the concrete signaled-but-empty state the
cycle emits no output. -/
theorem spurious_wake_not_logged :
    ¬ ((workerCycle clsZero spuriousState).2.2 ≠ []) := by decide

/-- C8 (amended): on a worker wake with the treatment queue empty, the worker
treats it as non-fatal and silently continues the loop — no classification
output, no actuation change, no queue mutation, and (contrary to the claim)
no log message; only the semaphore decrement remains. -/
theorem spurious_wake_continues (s : EiState)
    (cls : I2S_Transaction → EiClassification)
    (h0 : 0 < s.semDataReadyForTreatment) (ht : s.treatmentList = []) :
    (workerCycle cls s).2.1 = .continued ∧
    (workerCycle cls s).2.2 = [] ∧
    (workerCycle cls s).1.treatmentList = s.treatmentList ∧
    (workerCycle cls s).1.i2sReadList = s.i2sReadList ∧
    (workerCycle cls s).1.doutControl = s.doutControl ∧
    (workerCycle cls s).1.semDataReadyForTreatment =
      s.semDataReadyForTreatment - 1 := by
  have h0' : ¬ s.semDataReadyForTreatment = 0 := by omega
  rw [workerCycle_spurious cls s h0' ht]
  exact ⟨rfl, rfl, ht.symm ▸ rfl, rfl, rfl, rfl⟩

/-- C8 witness: at the concrete signaled-but-empty state the cycle continues
with queues, output lines and log all unchanged. -/
theorem spurious_wake_continues_witness :
    (workerCycle clsZero spuriousState).2.1 = .continued ∧
    (workerCycle clsZero spuriousState).1.treatmentList =
      spuriousState.treatmentList ∧
    (workerCycle clsZero spuriousState).1.doutControl =
      spuriousState.doutControl := by
  have h := spurious_wake_continues spuriousState clsZero (by decide) rfl
  exact ⟨h.1, h.2.2.1, h.2.2.2.2.1⟩

/-- C9: for every offset and length with `offset + length` within the bound
buffer's sample count, the pull accessor returns 0 and writes exactly
`length` output samples into the caller-supplied region — sample `i` of the
output is the Q15 sample at index `offset + i` of the bound buffer converted
to floating point — and it leaves every position of the region at index
`length` or beyond untouched.  Determinism is immediate: the result is a
function of the bound buffer, offset, length and region alone. -/
theorem raw_feature_get_data_spec (features : List Int) (offset length : Nat)
    (out_ptr : List ℚ) (hb : offset + length ≤ features.length)
    (ho : length ≤ out_ptr.length) :
    (raw_feature_get_data features offset length out_ptr).2 = 0 ∧
    (raw_feature_get_data features offset length out_ptr).1.length =
      out_ptr.length ∧
    (∀ i, i < length →
      (raw_feature_get_data features offset length out_ptr).1[i]? =
        (features[offset + i]?).map (fun x : Int => (x : ℚ) / 32768)) ∧
    (∀ j, length ≤ j →
      (raw_feature_get_data features offset length out_ptr).1[j]? =
        out_ptr[j]?) := by
  have hAlen : (arm_q15_to_float (features.drop offset) length).length = length := by
    rw [arm_q15_to_float, List.length_map, List.length_take, List.length_drop]
    omega
  refine ⟨rfl, ?_, ?_, ?_⟩
  · rw [raw_feature_get_data, List.length_append, hAlen, List.length_drop]
    omega
  · intro i hi
    rw [raw_feature_get_data]
    rw [List.getElem?_append_left (by rw [hAlen]; exact hi)]
    rw [arm_q15_to_float, List.getElem?_map, List.getElem?_take_of_lt hi,
      List.getElem?_drop]
  · intro j hj
    rw [raw_feature_get_data]
    rw [List.getElem?_append_right (by rw [hAlen]; exact hj), hAlen,
      List.getElem?_drop]
    congr 1
    omega

/-- C9 witness: on a concrete bound buffer of four Q15 samples, reading two
samples at offset 1 into a three-slot region returns 0, converts the samples
at indices 1 and 2, and leaves the third region slot untouched. -/
theorem raw_feature_get_data_spec_witness :
    (raw_feature_get_data [16384, -16384, 32, 7] 1 2 [9, 9, 9]).2 = 0 ∧
    (raw_feature_get_data [16384, -16384, 32, 7] 1 2 [9, 9, 9]).1[0]? =
      (([16384, -16384, 32, 7] : List Int)[1]?).map
        (fun x : Int => (x : ℚ) / 32768) ∧
    (raw_feature_get_data [16384, -16384, 32, 7] 1 2 [9, 9, 9]).1[2]? =
      ([9, 9, 9] : List ℚ)[2]? := by
  have h := raw_feature_get_data_spec [16384, -16384, 32, 7] 1 2 [9, 9, 9]
    (by decide) (by decide)
  exact ⟨h.1, h.2.2.1 0 (by decide), h.2.2.2 2 (by decide)⟩

/-- A completion burst in which every callback posts increments the counting
semaphore once per completion (no post is lost) and appends the finished
buffers to the treatment queue in completion order. -/
theorem handlerSeq_burst (ts : List I2S_Transaction) :
    ∀ s : EiState, allPost s ts = true →
      (handlerSeq s ts).semDataReadyForTreatment =
        s.semDataReadyForTreatment + ts.length ∧
      (handlerSeq s ts).treatmentList = s.treatmentList ++ movedSeq s ts ∧
      (movedSeq s ts).length = ts.length := by
  induction ts with
  | nil =>
      intro s _
      exact ⟨rfl, (List.append_nil _).symm, rfl⟩
  | cons t ts ih =>
      intro s hpost
      rw [allPost, Bool.and_eq_true] at hpost
      obtain ⟨hsome, hrest⟩ := hpost
      cases hp : List_prev s.i2sReadList t with
      | none => rw [hp] at hsome; cases hsome
      | some p =>
          have hseq : handlerSeq s (t :: ts) = handlerSeq (I2SreadCallback s t) ts := rfl
          have hmv : movedSeq s (t :: ts) = p :: movedSeq (I2SreadCallback s t) ts := by
            rw [movedSeq, hp]
          have hsem_cb : (I2SreadCallback s t).semDataReadyForTreatment =
              s.semDataReadyForTreatment + 1 := by
            rw [I2SreadCallback_some s t p hp]
          have htreat_cb : (I2SreadCallback s t).treatmentList =
              s.treatmentList ++ [p] := by
            rw [I2SreadCallback_some s t p hp]
          obtain ⟨ih1, ih2, ih3⟩ := ih (I2SreadCallback s t) hrest
          refine ⟨?_, ?_, ?_⟩
          · rw [hseq, ih1, hsem_cb, List.length_cons]
            omega
          · rw [hseq, ih2, htreat_cb, hmv, List.append_assoc]
            rfl
          · rw [hmv, List.length_cons, ih3, List.length_cons]

/-- A completion burst preserves the queue invariant. -/
theorem queueInv_handlerSeq (ts : List I2S_Transaction) :
    ∀ s : EiState, QueueInv s → QueueInv (handlerSeq s ts) := by
  induction ts with
  | nil => intro s h; exact h
  | cons t ts ih =>
      intro s h
      exact ih (I2SreadCallback s t) (queueInv_readCallback s t h)

/-- Draining: with a successful classifier, `n` worker passes from a state
holding at least `n` pending signals and `n` queued buffers treat exactly the
first `n` treatment-queue entries in FIFO order, removing each from the
treatment queue and appending it to the read queue. -/
theorem workerIter_drain (cls : I2S_Transaction → EiClassification)
    (hcls : ∀ t, (cls t).status = 0) :
    ∀ (n : Nat) (s : EiState),
      n ≤ s.semDataReadyForTreatment → n ≤ s.treatmentList.length →
      procSeq cls n s = s.treatmentList.take n ∧
      (workerIter cls n s).treatmentList = s.treatmentList.drop n ∧
      (workerIter cls n s).semDataReadyForTreatment =
        s.semDataReadyForTreatment - n ∧
      (workerIter cls n s).i2sReadList =
        s.i2sReadList ++ s.treatmentList.take n := by
  intro n
  induction n with
  | zero =>
      intro s _ _
      exact ⟨rfl, rfl, by rw [Nat.sub_zero]; rfl, (List.append_nil _).symm⟩
  | succ n ih =>
      intro s hsem htreat
      obtain ⟨m, hm⟩ : ∃ m, s.semDataReadyForTreatment = m + 1 :=
        ⟨s.semDataReadyForTreatment - 1, by omega⟩
      cases ht : s.treatmentList with
      | nil => rw [ht] at htreat; simp at htreat
      | cons t rest =>
          have h0 : ¬ s.semDataReadyForTreatment = 0 := by omega
          have hstep : workerStep cls s =
              { s with
                semDataReadyForTreatment := s.semDataReadyForTreatment - 1
                doutControl :=
                  driveLines (classifyDecision (cls t).goValue (cls t).stopValue)
                    s.doutControl
                treatmentList := rest
                i2sReadList := s.i2sReadList ++ [t] } := by
            rw [workerStep, workerCycle_ok cls s t rest h0 ht (hcls t)]
          have hproc : procSeq cls (n + 1) s = t :: procSeq cls n (workerStep cls s) := by
            rw [procSeq, hm, ht]
          have hiter : workerIter cls (n + 1) s = workerIter cls n (workerStep cls s) := rfl
          have hsem_st : (workerStep cls s).semDataReadyForTreatment =
              s.semDataReadyForTreatment - 1 := by
            rw [hstep]
          have htreat_st : (workerStep cls s).treatmentList = rest := by
            rw [hstep]
          have hread_st : (workerStep cls s).i2sReadList = s.i2sReadList ++ [t] := by
            rw [hstep]
          have hsem' : n ≤ (workerStep cls s).semDataReadyForTreatment := by
            rw [hsem_st]
            omega
          have htreat' : n ≤ (workerStep cls s).treatmentList.length := by
            rw [htreat_st]
            rw [ht] at htreat
            simp only [List.length_cons] at htreat
            omega
          obtain ⟨ih1, ih2, ih3, ih4⟩ := ih (workerStep cls s) hsem' htreat'
          refine ⟨?_, ?_, ?_, ?_⟩
          · rw [hproc, ih1, htreat_st, List.take_succ_cons]
          · rw [hiter, ih2, htreat_st, List.drop_succ_cons]
          · rw [hiter, ih3, hsem_st]
            omega
          · rw [hiter, ih4, hread_st, htreat_st, List.take_succ_cons,
              List.append_assoc]
            rfl

/-- C6: a burst of `k` completion signals posted while the worker has not
yet drained its queue loses nothing: the counting semaphore rises by exactly
`k`, the `k` finished buffers join the treatment queue in completion order,
and the pending-plus-`k` following worker passes each drain exactly one
treatment item, treating every queued buffer exactly once in FIFO order —
pairwise distinct, none skipped, none treated twice — after which the
semaphore is back at zero and the next pass blocks (exactly that many cycles
run). -/
theorem burst_no_signal_lost (s : EiState) (ts : List I2S_Transaction)
    (cls : I2S_Transaction → EiClassification) (hr : Reach s)
    (hq : s.semDataReadyForTreatment = s.treatmentList.length)
    (hb : allPost s ts = true) (hcls : ∀ t, (cls t).status = 0) :
    (handlerSeq s ts).semDataReadyForTreatment =
      s.treatmentList.length + ts.length ∧
    (movedSeq s ts).length = ts.length ∧
    (handlerSeq s ts).treatmentList = s.treatmentList ++ movedSeq s ts ∧
    procSeq cls (s.treatmentList.length + ts.length) (handlerSeq s ts) =
      s.treatmentList ++ movedSeq s ts ∧
    (procSeq cls (s.treatmentList.length + ts.length) (handlerSeq s ts)).Nodup ∧
    (workerIter cls (s.treatmentList.length + ts.length)
      (handlerSeq s ts)).treatmentList = [] ∧
    (workerIter cls (s.treatmentList.length + ts.length)
      (handlerSeq s ts)).semDataReadyForTreatment = 0 ∧
    (workerCycle cls (workerIter cls (s.treatmentList.length + ts.length)
      (handlerSeq s ts))).2.1 = .blocked := by
  obtain ⟨hsem1, htreat1, hmoved⟩ := handlerSeq_burst ts s hb
  have hlen1 : (handlerSeq s ts).treatmentList.length =
      s.treatmentList.length + ts.length := by
    rw [htreat1, List.length_append, hmoved]
  have hsem1' : (handlerSeq s ts).semDataReadyForTreatment =
      s.treatmentList.length + ts.length := by
    rw [hsem1, hq]
  obtain ⟨hd1, hd2, hd3, hd4⟩ := workerIter_drain cls hcls
    (s.treatmentList.length + ts.length) (handlerSeq s ts)
    (le_of_eq hsem1'.symm) (le_of_eq hlen1.symm)
  have hproc : procSeq cls (s.treatmentList.length + ts.length) (handlerSeq s ts) =
      s.treatmentList ++ movedSeq s ts := by
    rw [hd1, ← hlen1, List.take_length, htreat1]
  refine ⟨hsem1', hmoved, htreat1, hproc, ?_, ?_, ?_, ?_⟩
  · have hinv := queueInv_handlerSeq ts s (reach_queueInv hr)
    obtain ⟨hperm, _⟩ := hinv
    have hpool : i2sTransactionList.Nodup := by decide
    have hnd : ((handlerSeq s ts).i2sReadList ++
        (handlerSeq s ts).treatmentList).Nodup := hperm.nodup_iff.mpr hpool
    rw [List.nodup_append] at hnd
    rw [hproc, ← htreat1]
    exact hnd.2.1
  · rw [hd2, ← hlen1, List.drop_length]
  · rw [hd3, hsem1']
    omega
  · have hz : (workerIter cls (s.treatmentList.length + ts.length)
        (handlerSeq s ts)).semDataReadyForTreatment = 0 := by
      rw [hd3, hsem1']
      omega
    rw [workerCycle_blocked cls _ hz]

/-- C6 witness: from the startup state, a burst of two completions (active
transaction advancing to 2 then 3) posts twice; two worker passes then treat
buffers 1 and 2 in that order, and a third pass blocks. -/
theorem burst_no_signal_lost_witness :
    (handlerSeq (initState 0 0) [i2sTransaction2, i2sTransaction3]).semDataReadyForTreatment = 2 ∧
    procSeq clsZero 2 (handlerSeq (initState 0 0) [i2sTransaction2, i2sTransaction3]) =
      [i2sTransaction1, i2sTransaction2] ∧
    (workerIter clsZero 2 (handlerSeq (initState 0 0)
      [i2sTransaction2, i2sTransaction3])).semDataReadyForTreatment = 0 := by
  have h := burst_no_signal_lost (initState 0 0) [i2sTransaction2, i2sTransaction3]
    clsZero (Reach.init 0 0) rfl (by decide) (fun _ => rfl)
  refine ⟨h.1, ?_, h.2.2.2.2.2.2.1⟩
  have hp : procSeq clsZero 2 (handlerSeq (initState 0 0)
      [i2sTransaction2, i2sTransaction3]) =
      (initState 0 0).treatmentList ++
        movedSeq (initState 0 0) [i2sTransaction2, i2sTransaction3] := h.2.2.2.1
  rw [hp]
  decide

end EdgeImpulseAudio
